import Mathlib

/-!
Shallow embedding of the GoImageBoardArchiver core (packages `internal/core`,
`internal/network`, `internal/model`) and verification of the specification
claims against it.  Each Go function referenced by a claim is translated into
an executable Lean definition; machine integers are modelled as `Int`/`Nat`
(no overflow is relevant at the sizes involved), time values as integer
nanosecond counts, fallible operations as `Except`/`Option`, and the file
system as explicit pure state.
-/

namespace GIBA

/-- `model.ThreadInfo` (internal/model): catalog-discovered thread record.
`Date` is modelled as `Option` of (year, month, day): `none` plays the role of
Go's zero `time.Time` (`thread.Date.IsZero()`). -/
structure ThreadInfo where
  id : String
  title : String
  url : String
  resCount : Int
  date : Option (Nat × Nat × Nat)
  deriving DecidableEq, Repr

/-- `model.MediaInfo` (internal/model): one media asset of a thread. -/
structure MediaInfo where
  url : String
  thumbnailURL : String
  originalFilename : String
  resNumber : Int
  localPath : String
  localThumbPath : String
  deriving DecidableEq, Repr

/-- `core.ThreadSnapshot` (internal/core/incremental.go): persisted per-thread
state.  `time.Time` fields are modelled as `Int` (nanoseconds). -/
structure ThreadSnapshot where
  threadID : String
  lastChecked : Int
  lastPostCount : Int
  lastMediaCount : Int
  lastModified : Int
  isComplete : Bool
  deriving DecidableEq, Repr

/-- `core.NeedsUpdate` (internal/core/incremental.go lines 62-77); the Go
`*ThreadSnapshot` (nil on first archive) is an `Option ThreadSnapshot`. -/
def NeedsUpdate (snapshot : Option ThreadSnapshot) (currentMediaCount : Int) : Bool :=
  match snapshot with
  | none => true
  | some s =>
    if s.isComplete then false
    else if currentMediaCount > s.lastMediaCount then true
    else false

/-- `network.HTTPError` (internal/network/client.go). -/
structure HTTPError where
  statusCode : Nat
  url : String
  message : String
  deriving DecidableEq, Repr

/-- `(*HTTPError).IsRetryable` (internal/network/client.go lines 278-287):
4xx is not retryable, anything else is. -/
def HTTPError.isRetryable (e : HTTPError) : Bool :=
  if 400 ≤ e.statusCode ∧ e.statusCode < 500 then false
  else true

/-- Models Go's `http.StatusText`; the message text is never inspected by the
core, so it is modelled as the empty string. -/
def statusText (_ : Nat) : String := ""

/-- The response-handling tail of `(*Client).Get` (internal/network/client.go
lines 393-407): given the status code and body of the HTTP response, either
return the body or a typed `HTTPError`.  The Go test is
`resp.StatusCode != http.StatusOK`, i.e. anything other than exactly 200 is
an error. -/
def clientGetResponse (status : Nat) (body : String) (reqURL : String) :
    Except HTTPError String :=
  if status ≠ 200 then
    .error { statusCode := status, url := reqURL, message := statusText status }
  else
    .ok body

/-! ### downloadFile (internal/core/thread_archiver.go lines 327-370) -/

/-- Outcome of one attempt of the `downloadFile` loop body: `client.Get`
succeeds and the write succeeds (`success`), `Get` returns an `HTTPError`
with the given status (`httpError`), `Get` fails with a non-HTTP error such
as a network failure (`netError`), or `Get` succeeds but `os.WriteFile`
fails (`writeError`). -/
inductive AttemptOutcome where
  | success
  | httpError (status : Nat)
  | netError
  | writeError
  deriving DecidableEq, Repr

/-- Final result of `downloadFile`: success, immediate abort on a
non-retryable HTTP error carrying this status, or the retry budget ran out. -/
inductive DownloadResult where
  | ok
  | permanentHTTP (status : Nat)
  | exhausted
  deriving DecidableEq, Repr

/-- Observable trace of one `downloadFile` call: its result, how many loop
iterations (attempts) ran, and how many `time.Sleep(retryWait)` waits were
performed. -/
structure DownloadRun where
  result : DownloadResult
  attempts : Nat
  waits : Nat
  deriving DecidableEq, Repr

/-- One step of the `downloadFile` retry loop, recursing on the remaining
fuel `retryCount + 1 - i`.  `att j` is the outcome the environment produces
for attempt number `j` (0-based).  Mirrors
`for i := 0; i <= retryCount; i++`: a non-retryable `HTTPError` returns
immediately; every other failure waits (`if i < retryCount`) and continues. -/
def downloadFileAux (att : Nat → AttemptOutcome) (retryCount : Nat) :
    Nat → Nat → DownloadRun
  | _, 0 => { result := .exhausted, attempts := 0, waits := 0 }
  | i, fuel + 1 =>
    match att i with
    | .success => { result := .ok, attempts := 1, waits := 0 }
    | .httpError s =>
      if (HTTPError.isRetryable { statusCode := s, url := "", message := "" }) = false then
        { result := .permanentHTTP s, attempts := 1, waits := 0 }
      else
        let w := if i < retryCount then 1 else 0
        let r := downloadFileAux att retryCount (i + 1) fuel
        { result := r.result, attempts := r.attempts + 1, waits := r.waits + w }
    | .netError =>
      let w := if i < retryCount then 1 else 0
      let r := downloadFileAux att retryCount (i + 1) fuel
      { result := r.result, attempts := r.attempts + 1, waits := r.waits + w }
    | .writeError =>
      let w := if i < retryCount then 1 else 0
      let r := downloadFileAux att retryCount (i + 1) fuel
      { result := r.result, attempts := r.attempts + 1, waits := r.waits + w }

/-- `downloadFile`: run the retry loop from attempt 0 with fuel for the full
`retryCount + 1` iterations. -/
def downloadFile (att : Nat → AttemptOutcome) (retryCount : Nat) : DownloadRun :=
  downloadFileAux att retryCount 0 (retryCount + 1)

/-- An attempt outcome on which the Go loop keeps going: a retryable
`HTTPError`, a network error, or a local write failure. -/
def AttemptOutcome.failsRetryably : AttemptOutcome → Bool
  | .success => false
  | .httpError s => HTTPError.isRetryable { statusCode := s, url := "", message := "" }
  | .netError => true
  | .writeError => true

/-! ### String machinery shared by the Go string / regexp translations

Go strings are modelled as `List Char` (`GoStr`).  The regular expressions
of `incremental.go` are all of a fixed shape, so they are translated into
explicit scanning functions with the exact RE2 match semantics of the
patterns involved (leftmost match, lazy `.*?`, character classes `[^>]`
and `[^"]`, non-overlapping `FindAll`).  Functions that consume at least
one character per step are written with an explicit fuel argument equal to
the input length, which the per-step consumption makes sufficient. -/

abbrev GoStr := List Char

/-- Convert a Lean string literal to the `List Char` model. -/
def strOf (s : String) : GoStr := s.toList

/-- `strings.Index`: index of the first occurrence of `needle`, `none` when
absent (Go returns -1). -/
def findSubIdx (needle : GoStr) : GoStr → Option Nat
  | [] => if needle = [] then some 0 else none
  | c :: rest =>
    if needle.isPrefixOf (c :: rest) then some 0
    else match findSubIdx needle rest with
      | some i => some (i + 1)
      | none => none

/-- `strings.LastIndex`: index of the last occurrence of `needle`. -/
def lastSubIdx (needle : GoStr) : GoStr → Option Nat
  | [] => if needle = [] then some 0 else none
  | c :: rest =>
    match lastSubIdx needle rest with
    | some i => some (i + 1)
    | none => if needle.isPrefixOf (c :: rest) then some 0 else none

/-- `strings.Contains`. -/
def containsSub (needle hay : GoStr) : Bool := (findSubIdx needle hay).isSome

/-- One pass of a `strings.Replacer`: scan left to right; at each position
the first pattern (in argument order) that matches is replaced, without
overlapping; empty patterns never occur in the source's replacers.  The
fuel starts at the input length; every step consumes at least one input
character, so it never runs out. -/
def replacerGo (pairs : List (GoStr × GoStr)) : Nat → GoStr → GoStr
  | 0, s => s
  | _ + 1, [] => []
  | fuel + 1, c :: rest =>
    match pairs.find? (fun p => !p.1.isEmpty && p.1.isPrefixOf (c :: rest)) with
    | some p => p.2 ++ replacerGo pairs fuel ((c :: rest).drop p.1.length)
    | none => c :: replacerGo pairs fuel rest

/-- `strings.NewReplacer(...).Replace`. -/
def replacerRun (pairs : List (GoStr × GoStr)) (s : GoStr) : GoStr :=
  replacerGo pairs s.length s

/-- Maximal run of decimal digits at the front (the `(\d+)` capture). -/
def takeDigits : GoStr → GoStr × GoStr
  | [] => ([], [])
  | c :: rest =>
    if c.isDigit then
      let d := takeDigits rest
      (c :: d.1, d.2)
    else ([], c :: rest)

/-- All captures of a pattern `pre(\d+)post` over the input, non-overlapping,
left to right — the semantics of `regexp.FindAllStringSubmatch` for the
three patterns of `extractResNumbers` (`No\.(\d+)`, `data-res="(\d+)"`,
`id="r(\d+)"`).  `pre` is nonempty in every use. -/
def scanCaptureGo (pre post : GoStr) : Nat → GoStr → List GoStr
  | 0, _ => []
  | _ + 1, [] => []
  | fuel + 1, c :: rest =>
    if pre.isPrefixOf (c :: rest) then
      let after := (c :: rest).drop pre.length
      let d := (takeDigits after).1
      let r := (takeDigits after).2
      if !d.isEmpty && post.isPrefixOf r then
        d :: scanCaptureGo pre post fuel (r.drop post.length)
      else
        scanCaptureGo pre post fuel rest
    else
      scanCaptureGo pre post fuel rest

def scanCapture (pre post : GoStr) (s : GoStr) : List GoStr :=
  scanCaptureGo pre post s.length s

/-- `extractResNumbers` (internal/core/incremental.go lines 222-243): the
list of all captures of the three patterns; the Go code stores them in a
`map[string]bool`, so only the set of elements is meaningful. -/
def extractResNumbers (html : GoStr) : List GoStr :=
  scanCapture (strOf "No.") [] html
  ++ scanCapture (strOf "data-res=\"") ['"'] html
  ++ scanCapture (strOf "id=\"r") ['"'] html

/-- `regexp.FindAllString` for the patterns
`(?s)<table[^>]*>.*?No\.N.*?</table>` and
`(?s)<blockquote[^>]*>.*?No\.N.*?</blockquote>` of `extractPostsHTML`.
A match starting at an occurrence of `openTag` is forced: `[^>]*>` must end
at the first `>` after the tag name, the lazy parts stop at the first
`noTag` and the first `closeTag` after it.  On failure the scan resumes at
the next occurrence of `openTag`; after a match it resumes at the match
end (matches never overlap). -/
def findAllBlockGo (openTag closeTag noTag : GoStr) : Nat → GoStr → List GoStr
  | 0, _ => []
  | _ + 1, [] => []
  | fuel + 1, s =>
    match findSubIdx openTag s with
    | none => []
    | some q =>
      let afterOpen := s.drop (q + openTag.length)
      match findSubIdx ['>'] afterOpen with
      | none => []
      | some g =>
        let afterGt := afterOpen.drop (g + 1)
        match findSubIdx noTag afterGt with
        | none => findAllBlockGo openTag closeTag noTag fuel (s.drop (q + 1))
        | some m =>
          let afterNo := afterGt.drop (m + noTag.length)
          match findSubIdx closeTag afterNo with
          | none => findAllBlockGo openTag closeTag noTag fuel (s.drop (q + 1))
          | some e =>
            let matchLen := openTag.length + g + 1 + m + noTag.length + e + closeTag.length
            (s.drop q).take matchLen ::
              findAllBlockGo openTag closeTag noTag fuel (s.drop (q + matchLen))

def findAllBlock (openTag closeTag noTag : GoStr) (s : GoStr) : List GoStr :=
  findAllBlockGo openTag closeTag noTag s.length s

/-- Attempt to match
`<div[^>]*class="[^"]*reply[^"]*"[^>]*>.*?No\.N.*?</div>` at one occurrence
of `<div`, backtracking over the position of `class="` from the greedy
(rightmost admissible) candidate down.  `cands` enumerates the candidate
offsets of `class="` inside `inner` (all below the first `>`), largest
first.  Returns the match length measured from the `<div`. -/
def divMatchLen (inner : GoStr) (noTag : GoStr) : List Nat → Option Nat
  | [] => none
  | t :: ts =>
    let afterClass := inner.drop (t + (strOf "class=\"").length)
    match findSubIdx ['"'] afterClass with
    | none => divMatchLen inner noTag ts
    | some v =>
      if containsSub (strOf "reply") (afterClass.take v) then
        let afterQuote := afterClass.drop (v + 1)
        match findSubIdx ['>'] afterQuote with
        | none => divMatchLen inner noTag ts
        | some w =>
          let tail := afterQuote.drop (w + 1)
          match findSubIdx noTag tail with
          | none => divMatchLen inner noTag ts
          | some m =>
            let afterNo := tail.drop (m + noTag.length)
            match findSubIdx (strOf "</div>") afterNo with
            | none => divMatchLen inner noTag ts
            | some e =>
              some ((strOf "<div").length + t + (strOf "class=\"").length
                + v + 1 + w + 1 + m + noTag.length + e + (strOf "</div>").length)
      else divMatchLen inner noTag ts

/-- Candidate offsets of `class="` in `inner` that the `[^>]*` before it can
reach (no `>` strictly before the candidate), in increasing order. -/
def divClassCands (inner : GoStr) : List Nat :=
  let bound := match findSubIdx ['>'] inner with
    | none => inner.length
    | some g => g
  (List.range (bound + 1)).filter
    (fun t => (strOf "class=\"").isPrefixOf (inner.drop t))

/-- `regexp.FindAllString` for the pattern
`(?s)<div[^>]*class="[^"]*reply[^"]*"[^>]*>.*?No\.N.*?</div>`. -/
def findAllDivReplyGo (noTag : GoStr) : Nat → GoStr → List GoStr
  | 0, _ => []
  | _ + 1, [] => []
  | fuel + 1, s =>
    match findSubIdx (strOf "<div") s with
    | none => []
    | some q =>
      let inner := (s.drop q).drop (strOf "<div").length
      match divMatchLen inner noTag (divClassCands inner).reverse with
      | none => findAllDivReplyGo noTag fuel (s.drop (q + 1))
      | some len =>
        (s.drop q).take len :: findAllDivReplyGo noTag fuel (s.drop (q + len))

def findAllDivReply (noTag : GoStr) (s : GoStr) : List GoStr :=
  findAllDivReplyGo noTag s.length s

/-- `extractPostsHTML` (internal/core/incremental.go lines 136-162): for
each deleted res number, collect the matches of the three block patterns
over the old HTML in order, each followed by a newline. -/
def extractPostsHTML (html : GoStr) (resNumbers : List GoStr) : GoStr :=
  (resNumbers.map (fun n =>
    let noTag := strOf "No." ++ n
    ((findAllBlock (strOf "<table") (strOf "</table>") noTag html
      ++ findAllDivReply noTag html
      ++ findAllBlock (strOf "<blockquote") (strOf "</blockquote>") noTag html).map
        (fun m => m ++ ['\n'])).flatten)).flatten

/-- The deleted res numbers of `detectAndExtractDeletedContent`
(internal/core/incremental.go lines 110-133): keys of the old set that are
absent from the new set.  The Go code iterates a `map` in unspecified
order; `dedup` fixes one canonical enumeration of the key set. -/
def deletedResNumbersOf (oldHTML newHTML : GoStr) : List GoStr :=
  ((extractResNumbers oldHTML).dedup).filter
    (fun n => !(extractResNumbers newHTML).contains n)

/-- `detectAndExtractDeletedContent`: empty when nothing was deleted,
otherwise the extracted markup of the deleted posts. -/
def detectAndExtractDeletedContent (oldHTML newHTML : GoStr) : GoStr :=
  let deleted := deletedResNumbersOf oldHTML newHTML
  if deleted.isEmpty then []
  else extractPostsHTML oldHTML deleted

/-- The opening marker `markAsDeleted` wraps around the deleted posts
(internal/core/incremental.go lines 196-198); `now` is the formatted
`time.Now()` string, threaded as a parameter. -/
def deletedStyleOpen (now : GoStr) : GoStr :=
  strOf "<div style=\"background: #ffe0e0; border: 2px solid #ff0000; padding: 10px; margin: 10px 0; opacity: 0.7;\">\n<div style=\"color: #ff0000; font-weight: bold; margin-bottom: 5px;\">⚠️ このレスは削除されました (削除検知: "
  ++ now ++ strOf ")</div>\n"

/-- `markAsDeleted` (internal/core/incremental.go lines 190-202). -/
def markAsDeleted (now postsHTML : GoStr) : GoStr :=
  if postsHTML.isEmpty then []
  else deletedStyleOpen now ++ postsHTML ++ strOf "</div>"

/-- Text before the `%s` of `createDeletedSection`
(internal/core/incremental.go lines 210-218). -/
def deletedSectionPre : GoStr :=
  strOf "\n<!-- 削除されたレスのセクション -->\n<hr style=\"border: 2px dashed #ff0000; margin: 20px 0;\">\n<div id=\"deleted-posts-section\" style=\"background: #fff8f8; padding: 20px; margin: 20px 0;\">\n<h2 style=\"color: #ff0000;\">🗑️ 削除されたレス</h2>\n<p style=\"color: #666;\">以下のレスはスレッドから削除されましたが、アーカイブに保存されています。</p>\n"

/-- Text after the `%s` of `createDeletedSection`. -/
def deletedSectionPost : GoStr := strOf "\n</div>\n"

/-- `createDeletedSection` (internal/core/incremental.go lines 205-219). -/
def createDeletedSection (deletedPostsHTML : GoStr) : GoStr :=
  if deletedPostsHTML.isEmpty then []
  else deletedSectionPre ++ deletedPostsHTML ++ deletedSectionPost

/-- `mergeDeletedPostsIntoHTML` (internal/core/incremental.go lines
165-187): with no deleted posts the new HTML is returned unchanged;
otherwise the marked deleted section is spliced in before the last
`</body>`, or appended after a newline when no `</body>` exists.  The Go
error result is always nil, so the function is modelled as total. -/
def mergeDeletedPostsIntoHTML (now newHTML deletedPostsHTML : GoStr) : GoStr :=
  if deletedPostsHTML.isEmpty then newHTML
  else
    let marked := markAsDeleted now deletedPostsHTML
    match lastSubIdx (strOf "</body>") newHTML with
    | none => newHTML ++ ['\n'] ++ createDeletedSection marked
    | some i => newHTML.take i ++ createDeletedSection marked ++ newHTML.drop i

/-! ### generateFileName and handleResumeLogic
(internal/core/thread_archiver.go lines 463-577) -/

/-- The final slash-separated element of a path (path separators are
modelled as `/`; the inputs involved are bare file names). -/
def afterLastSlash (p : GoStr) : GoStr :=
  match lastSubIdx ['/'] p with
  | none => p
  | some i => p.drop (i + 1)

/-- `filepath.Ext`: the suffix from the final dot of the final
slash-separated element; empty when there is no dot. -/
def filepathExt (p : GoStr) : GoStr :=
  let lastElem := afterLastSlash p
  match lastSubIdx ['.'] lastElem with
  | none => []
  | some i => lastElem.drop i

/-- `strings.TrimSuffix`. -/
def trimSuffixGo (s suf : GoStr) : GoStr :=
  if suf.isSuffixOf s then s.take (s.length - suf.length) else s

/-- `strings.TrimPrefix` (the Lean identifier avoids the word itself). -/
def trimStart (s pre : GoStr) : GoStr :=
  if pre.isPrefixOf s then s.drop pre.length else s

/-- `fmt.Sprintf` with a `%02d` verb, for month and day numbers. -/
def pad2 (n : Nat) : GoStr :=
  if n < 10 then '0' :: strOf (toString n) else strOf (toString n)

/-- `SanitizeFilename` (internal/core/thread_archiver.go lines 698-711):
replace Windows-reserved characters with their full-width forms. -/
def SanitizeFilename (name : GoStr) : GoStr :=
  replacerRun
    [(strOf "/", strOf "／"), (strOf "\\", strOf "＼"), (strOf ":", strOf "："),
     (strOf "*", strOf "＊"), (strOf "?", strOf "？"), (strOf "\"", strOf "”"),
     (strOf "<", strOf "＜"), (strOf ">", strOf "＞"), (strOf "|", strOf "｜")]
    name

/-- The zero `model.ThreadInfo{}` passed by `handleResumeLogic` as a dummy. -/
def zeroThreadInfo : ThreadInfo :=
  { id := "", title := "", url := "", resCount := 0, date := none }

/-- `generateFileName` (internal/core/thread_archiver.go lines 523-577):
with an empty format the original file name is returned, or an error when
it is empty too; otherwise a template with `{year}`, `{month}`, `{day}`,
`{thread_id}`, `{res_number}`, `{original_filename}` and `{ext}` variables
is expanded with fall-back values. -/
def generateFileName (format : GoStr) (thread : ThreadInfo) (media : MediaInfo) :
    Except String GoStr :=
  if format.isEmpty then
    if media.originalFilename = "" then
      .error "ファイル名フォーマットとOriginalFilenameの両方が空です"
    else .ok (strOf media.originalFilename)
  else
    let ymd := match thread.date with
      | none => (strOf "0000", strOf "00", strOf "00")
      | some (y, m, d) => (strOf (toString y), pad2 m, pad2 d)
    let threadID := if thread.id = "" then strOf "unknown" else strOf thread.id
    let resNumber := strOf (toString media.resNumber)
    let ofn := strOf media.originalFilename
    let ext0 := filepathExt ofn
    let withoutExt0 := trimSuffixGo ofn ext0
    let withoutExt := if withoutExt0.isEmpty then strOf "file" else withoutExt0
    let ext1 := trimStart ext0 (strOf ".")
    let ext := if ext1.isEmpty then strOf "bin" else ext1
    let result := replacerRun
      [(strOf "{year}", ymd.1), (strOf "{month}", ymd.2.1), (strOf "{day}", ymd.2.2),
       (strOf "{thread_id}", threadID), (strOf "{res_number}", resNumber),
       (strOf "{original_filename}", SanitizeFilename withoutExt),
       (strOf "{ext}", ext)] format
    if result.isEmpty then .ok ofn else .ok result

/-- The per-candidate disk check of `handleResumeLogic` (lines 487-504):
keep the file for download unless name generation succeeds and the file
exists on disk with non-zero size.  `disk` maps a file name inside the
media directory (the constant `mediaSavePath` of one call) to its size,
`none` when `os.Stat` fails. -/
def resumeCheck (disk : GoStr → Option Nat) (files : List MediaInfo) :
    List MediaInfo :=
  files.filter (fun media =>
    match generateFileName [] zeroThreadInfo media with
    | .error _ => true
    | .ok name =>
      match disk name with
      | some size => if size > 0 then false else true
      | none => true)

/-- `handleResumeLogic` (internal/core/thread_archiver.go lines 466-521).
The pending file is `Option (List MediaInfo)`: `none` when `.resume.json`
is absent (or unreadable / unparseable, which the Go code treats the same
way); the returned pair is (files to download, new pending-file state):
the list is written back when nonempty, the file removed when empty. -/
def handleResumeLogic (enabled : Bool) (resumeFile : Option (List MediaInfo))
    (allMediaFiles : List MediaInfo) (disk : GoStr → Option Nat) :
    List MediaInfo × Option (List MediaInfo) :=
  if !enabled then (allMediaFiles, resumeFile)
  else
    let pendingFilesFromResume := match resumeFile with
      | some l => l
      | none => []
    let initialFilesToCheck :=
      if pendingFilesFromResume.length > 0 then pendingFilesFromResume
      else allMediaFiles
    let finalFilesToDownload := resumeCheck disk initialFilesToCheck
    if finalFilesToDownload.length > 0 then
      (finalFilesToDownload, some finalFilesToDownload)
    else
      (finalFilesToDownload, none)

/-- The disk-presence predicate the resume check skips on: name generation
succeeds and the named file exists with non-zero size. -/
def presentOnDisk (disk : GoStr → Option Nat) (media : MediaInfo) : Bool :=
  match generateFileName [] zeroThreadInfo media with
  | .error _ => false
  | .ok name =>
    match disk name with
    | some size => size > 0
    | none => false

/-! ### Verification engine (internal/core/verification.go) -/

/-- `24 * time.Hour` in nanoseconds. -/
def freshnessWindow : Int := 86400000000000

/-- The gate at the top of the per-thread loop of `verifyTask`
(internal/core/verification.go lines 127-144): from the `force` flag, the
thread's verification-history entry and the current time, decide whether
the body below the gate (directory lookup, index check, zero-byte scan) is
reached, and by how much `TotalFailed` changes.  Mirrors the Go control
flow exactly: the `if !force` block ends in an unconditional `continue`
after the freshness test, with a `TotalFailed++` when a stale entry
exists. -/
def verifyThreadGate (force : Bool) (histEntry : Option Int) (now : Int) :
    Bool × Nat :=
  if !force then
    match histEntry with
    | some lastVerified =>
      if now - lastVerified < freshnessWindow then (false, 0)
      else (false, 1)
    | none => (false, 0)
  else (true, 0)

/-- A directory entry as returned by `os.ReadDir`: a regular file with its
size, or a subdirectory with its own entries (which the verification scan
never descends into). -/
inductive FsEntry where
  | file (name : String) (size : Nat)
  | dir (name : String) (entries : List FsEntry)
  deriving Repr

/-- One line appended to `MissingDetails`. -/
inductive VerifyDetail where
  | indexMissing
  | corruptRemoved (name : String)
  | corruptFound (name : String)
  deriving DecidableEq, Repr

/-- Per-thread-directory outcome of the forced verification body. -/
structure ThreadScanResult where
  missingCount : Nat
  totalMissingDelta : Nat
  totalRepairedDelta : Nat
  totalFailedDelta : Nat
  removedFiles : List String
  details : List VerifyDetail
  historyRefreshed : Bool
  deriving DecidableEq, Repr

/-- The zero-size scan loop of `verifyTask` (verification.go lines
195-226): iterate the directory entries, skip subdirectories
(`file.IsDir()`), count each size-0 file, and in repair mode delete it
(`os.Remove`), recording a detail line either way.  Returns (missing
count, removed file names, detail lines). -/
def scanFilesLoop (repair : Bool) : List FsEntry → Nat × List String × List VerifyDetail
  | [] => (0, [], [])
  | .dir _ _ :: rest => scanFilesLoop repair rest
  | .file n sz :: rest =>
    let r := scanFilesLoop repair rest
    if sz = 0 then
      if repair then (r.1 + 1, n :: r.2.1, .corruptRemoved n :: r.2.2)
      else (r.1 + 1, r.2.1, .corruptFound n :: r.2.2)
    else r

/-- `index.htm`/`index.html` present as a top-level file with non-empty
contents (verification.go lines 164-173: `os.ReadFile` succeeds and
`len(content) > 0`). -/
def hasNonEmptyIndex (entries : List FsEntry) : Bool :=
  entries.any (fun e => match e with
    | .file n sz => (n = "index.htm" || n = "index.html") && sz > 0
    | .dir _ _ => false)

/-- Whether some top-level file of the directory has size zero. -/
def hasZeroTopLevelFile (entries : List FsEntry) : Bool :=
  entries.any (fun e => match e with
    | .file _ 0 => true
    | _ => false)

/-- The names of the zero-size top-level files of a directory. -/
def zeroByteTopLevelFiles (entries : List FsEntry) : List String :=
  entries.filterMap (fun e => match e with
    | .file n 0 => some n
    | _ => none)

/-- The forced verification body for one found thread directory
(verification.go lines 163-233): a missing index counts one `TotalMissing`
and stops; otherwise the zero-size scan runs, one `TotalMissing` is counted
when the scan found anything, and the verification history is refreshed
only for a problem-free directory.  No branch of this body modifies
`TotalRepaired` or `TotalFailed`. -/
def verifyFoundThreadDir (repair : Bool) (entries : List FsEntry) :
    ThreadScanResult :=
  if !hasNonEmptyIndex entries then
    { missingCount := 0, totalMissingDelta := 1, totalRepairedDelta := 0,
      totalFailedDelta := 0, removedFiles := [], details := [.indexMissing],
      historyRefreshed := false }
  else
    let r := scanFilesLoop repair entries
    { missingCount := r.1,
      totalMissingDelta := if r.1 > 0 then 1 else 0,
      totalRepairedDelta := 0, totalFailedDelta := 0,
      removedFiles := r.2.1, details := r.2.2,
      historyRefreshed := r.1 = 0 }

/-- The directory contents after the repair deletions (`os.Remove` targets
`filepath.Join(foundDir, file.Name())`, a top-level path). -/
def remainingEntries (entries : List FsEntry) (removed : List String) :
    List FsEntry :=
  entries.filter (fun e => match e with
    | .file n _ => !removed.contains n
    | .dir _ _ => true)

/-! ### Completed-thread history and the archive pipeline tail
(internal/core/thread_archiver.go) -/

/-- `strings.Split(contents, "\n")`. -/
def splitNl : GoStr → List GoStr
  | [] => [[]]
  | c :: rest =>
    if c = '\n' then [] :: splitNl rest
    else match splitNl rest with
      | [] => [[c]]
      | l :: ls => (c :: l) :: ls

/-- The white-space class of Go's `strings.TrimSpace` (the ASCII cases;
thread IDs contain no exotic Unicode space). -/
def isSpaceGo (c : Char) : Bool :=
  c = ' ' || c = '\t' || c = '\n' || c = '\x0B' || c = '\x0C' || c = '\r'

/-- `strings.TrimSpace`. -/
def trimSpace (s : GoStr) : GoStr :=
  ((s.dropWhile isSpaceGo).reverse.dropWhile isSpaceGo).reverse

/-- `loadTaskHistory` (verification.go lines 297-319): the thread IDs read
back from the history file — split on newlines, trimmed, empty lines
dropped.  Only the set of elements is meaningful (the Go code builds a
map). -/
def loadTaskHistory (contents : GoStr) : List GoStr :=
  ((splitNl contents).map trimSpace).filter (fun line => !line.isEmpty)

/-- `appendToHistory` (thread_archiver.go lines 625-640), modelled as a
state transformer on the history-file contents.  The body of the Go
function is an explicit stub (`スタブ迂回処理`): it logs
`STUB: appendToHistory called ... (skipped)` and returns nil without
opening the file; the actual append (`f.WriteString(threadID + "\n")`) is
commented out.  The file contents are therefore returned unchanged. -/
def appendToHistory (historyFileContents : String) (_threadID : String) : String :=
  historyFileContents

/-- The snapshot built at STEP 6 of `ArchiveSingleThread`
(thread_archiver.go lines 192-199): `LastPostCount` is the literal 0 (a
TODO in the source) and `IsComplete` is the literal `false`. -/
def newSnapshotAfterArchive (threadID : String) (now : Int) (mediaCount : Int) :
    ThreadSnapshot :=
  { threadID := threadID, lastChecked := now, lastPostCount := 0,
    lastMediaCount := mediaCount, lastModified := now, isComplete := false }

/-- Environment of one `ArchiveSingleThread` call (thread_archiver.go lines
26-225): the outcome of each effectful step, in pipeline order.
`midStepsFail` abstracts a failure in STEP 2-5 (path generation, directory
creation, resume handling, download, HTML reconstruction, or the index.htm
write), each of which returns an error before STEP 6 is reached. -/
structure ArchiveEnv where
  threadID : String
  now : Int
  fetchResult : Except HTTPError String
  parseOk : Bool
  filtersPass : Bool
  mediaCount : Nat
  minimumMediaCount : Nat
  loadedSnapshot : Option ThreadSnapshot
  midStepsFail : Bool

/-- The snapshot `ArchiveSingleThread` hands to `SaveThreadSnapshot`, or
`none` when the call returns (with an error or a skip) before STEP 6.  A
fetch error — e.g. a permanent 404 for a gone thread — aborts at STEP 1;
filter/threshold skips and the `NeedsUpdate` check return before the
snapshot update; the persisted snapshot is always
`newSnapshotAfterArchive` with its literal `IsComplete: false`. -/
def archivePersistedSnapshot (env : ArchiveEnv) : Option ThreadSnapshot :=
  match env.fetchResult with
  | .error _ => none
  | .ok _ =>
    if !env.parseOk then none
    else if !env.filtersPass then none
    else if env.mediaCount < env.minimumMediaCount then none
    else if !(NeedsUpdate env.loadedSnapshot (env.mediaCount : Int)) then none
    else if env.midStepsFail then none
    else some (newSnapshotAfterArchive env.threadID env.now (env.mediaCount : Int))

/-- Sample previous full render used to instantiate the deleted-content
properties: three table-delimited posts No.1, No.2, No.3. -/
def sampleOldFullRender : GoStr :=
  strOf "<html><body><table><td>No.1</td></table><table><td>No.2</td></table><table><td>No.3</td></table></body></html>"

/-- Sample current render: posts No.1 and No.3 remain, No.2 is gone. -/
def sampleCurrentRender : GoStr :=
  strOf "<html><body><table><td>No.1</td></table><table><td>No.3</td></table></body></html>"

/-- Sample formatted detection time. -/
def sampleNow : GoStr := strOf "2024-01-01 00:00:00"

/-- When every iteration of the loop fails retryably, the loop burns all of
its fuel, performing one attempt per unit of fuel and waiting whenever the
attempt index is below `retryCount`. -/
lemma downloadFileAux_exhaust (att : Nat → AttemptOutcome) (rc : Nat) :
    ∀ fuel i, (∀ j, j < fuel → (att (i + j)).failsRetryably = true) →
    downloadFileAux att rc i fuel =
      { result := .exhausted, attempts := fuel, waits := min fuel (rc - i) } := by
  intro fuel
  induction fuel with
  | zero =>
    intro i _
    simp [downloadFileAux]
  | succ n ih =>
    intro i h
    have h0 : (att i).failsRetryably = true := by
      have := h 0 (Nat.succ_pos n)
      simpa using this
    have hrec : downloadFileAux att rc (i + 1) n =
        { result := .exhausted, attempts := n, waits := min n (rc - (i + 1)) } := by
      apply ih
      intro j hj
      have := h (j + 1) (by omega)
      simpa [Nat.add_assoc, Nat.add_comm 1 j] using this
    have hmin : min n (rc - (i + 1)) + (if i < rc then 1 else 0) =
        min (n + 1) (rc - i) := by
      rcases Nat.lt_or_ge i rc with hlt | hge
      · simp only [if_pos hlt]
        omega
      · simp only [if_neg (Nat.not_lt.mpr hge)]
        omega
    cases hatt : att i with
    | success =>
      exfalso
      simp [AttemptOutcome.failsRetryably, hatt] at h0
    | httpError s =>
      have h0' : HTTPError.isRetryable
          { statusCode := s, url := "", message := "" } = true := by
        simpa [AttemptOutcome.failsRetryably, hatt] using h0
      simp only [downloadFileAux, hatt, h0', Bool.true_eq_false, if_false, hrec]
      simp only [DownloadRun.mk.injEq, true_and]
      exact hmin
    | netError =>
      simp only [downloadFileAux, hatt, hrec]
      simp only [DownloadRun.mk.injEq, true_and]
      exact hmin
    | writeError =>
      simp only [downloadFileAux, hatt, hrec]
      simp only [DownloadRun.mk.injEq, true_and]
      exact hmin

/-- When the attempts before index `k` fail retryably and attempt `k` fails
with a non-retryable HTTP error, the loop stops right at attempt `k`. -/
lemma downloadFileAux_permanent (att : Nat → AttemptOutcome) (rc s : Nat)
    (hperm : HTTPError.isRetryable { statusCode := s, url := "", message := "" } = false) :
    ∀ fuel i k, i ≤ k → k < i + fuel →
    (∀ j, i ≤ j → j < k → (att j).failsRetryably = true) →
    att k = .httpError s →
    (downloadFileAux att rc i fuel).result = .permanentHTTP s ∧
    (downloadFileAux att rc i fuel).attempts = k - i + 1 := by
  intro fuel
  induction fuel with
  | zero =>
    intro i k hik hk _ _
    omega
  | succ n ih =>
    intro i k hik hk hpre hk_err
    rcases Nat.eq_or_lt_of_le hik with heq | hlt
    · subst heq
      simp only [downloadFileAux, hk_err, hperm]
      simp
    · have h0 : (att i).failsRetryably = true := hpre i le_rfl hlt
      have hrec := ih (i + 1) k hlt (by omega)
        (fun j hj hjk => hpre j (by omega) hjk) hk_err
      cases hatt : att i with
      | success =>
        exfalso
        simp [AttemptOutcome.failsRetryably, hatt] at h0
      | httpError s' =>
        have h0' : HTTPError.isRetryable
            { statusCode := s', url := "", message := "" } = true := by
          simpa [AttemptOutcome.failsRetryably, hatt] using h0
        simp only [downloadFileAux, hatt, h0', Bool.true_eq_false, if_false]
        refine ⟨hrec.1, ?_⟩
        rw [hrec.2]
        omega
      | netError =>
        simp only [downloadFileAux, hatt]
        refine ⟨hrec.1, ?_⟩
        rw [hrec.2]
        omega
      | writeError =>
        simp only [downloadFileAux, hatt]
        refine ⟨hrec.1, ?_⟩
        rw [hrec.2]
        omega

/-- The filter of `resumeCheck` is the negation of `presentOnDisk`. -/
lemma resumeCheck_eq_filter (disk : GoStr → Option Nat) (files : List MediaInfo) :
    resumeCheck disk files = files.filter (fun m => !presentOnDisk disk m) := by
  unfold resumeCheck presentOnDisk
  congr 1
  funext m
  cases generateFileName [] zeroThreadInfo m with
  | error e => simp
  | ok name =>
    cases hdisk : disk name with
    | none => simp [hdisk]
    | some size => simp [hdisk]

/-- Evaluation of `handleResumeLogic` with resume enabled: the initial list
is the pending list when nonempty (else the full list), the result is its
not-present-on-disk filter, persisted when nonempty and deleted when
empty. -/
lemma handleResume_eval (disk : GoStr → Option Nat)
    (pending : Option (List MediaInfo)) (all : List MediaInfo) :
    handleResumeLogic true pending all disk =
      (let initial : List MediaInfo := match pending with
        | some (x :: xs) => x :: xs
        | _ => all
      let final := initial.filter (fun m => !presentOnDisk disk m)
      (final, if final = [] then none else some final)) := by
  have main : ∀ init : List MediaInfo,
      (if (resumeCheck disk init).length > 0
        then (resumeCheck disk init, some (resumeCheck disk init))
        else (resumeCheck disk init, none))
      = (init.filter (fun m => !presentOnDisk disk m),
         if init.filter (fun m => !presentOnDisk disk m) = [] then none
         else some (init.filter (fun m => !presentOnDisk disk m))) := by
    intro init
    rw [resumeCheck_eq_filter]
    cases hf : init.filter (fun m => !presentOnDisk disk m) with
    | nil => simp
    | cons y ys => simp
  cases pending with
  | none =>
    have hbody : handleResumeLogic true none all disk =
        (if (resumeCheck disk all).length > 0
          then (resumeCheck disk all, some (resumeCheck disk all))
          else (resumeCheck disk all, none)) := by
      simp [handleResumeLogic]
    rw [hbody]
    exact main all
  | some l =>
    cases l with
    | nil =>
      have hbody : handleResumeLogic true (some []) all disk =
          (if (resumeCheck disk all).length > 0
            then (resumeCheck disk all, some (resumeCheck disk all))
            else (resumeCheck disk all, none)) := by
        simp [handleResumeLogic]
      rw [hbody]
      exact main all
    | cons x xs =>
      have hbody : handleResumeLogic true (some (x :: xs)) all disk =
          (if (resumeCheck disk (x :: xs)).length > 0
            then (resumeCheck disk (x :: xs), some (resumeCheck disk (x :: xs)))
            else (resumeCheck disk (x :: xs), none)) := by
        simp [handleResumeLogic]
      rw [hbody]
      exact main (x :: xs)

/-- Filtering with the negated predicate keeps exactly the complement. -/
lemma length_filter_not (p : MediaInfo → Bool) (l : List MediaInfo) :
    (l.filter (fun m => !p m)).length = l.length - (l.filter p).length := by
  induction l with
  | nil => rfl
  | cons x t ih =>
    have hle : (t.filter p).length ≤ t.length := List.length_filter_le _ _
    by_cases hx : p x
    · rw [List.filter_cons_of_neg (by simp [hx]), List.filter_cons_of_pos hx,
        List.length_cons, List.length_cons, ih]
      omega
    · rw [List.filter_cons_of_pos (by simp [hx]), List.filter_cons_of_neg (by simp [hx]),
        List.length_cons, List.length_cons, ih]
      omega

/-- A duplicate-free list whose members are exactly `a` is `[a]`. -/
lemma eq_singleton_of_nodup_mem_iff {l : List GoStr} {a : GoStr}
    (hn : l.Nodup) (h : ∀ x, x ∈ l ↔ x = a) : l = [a] := by
  cases l with
  | nil => exact absurd ((h a).mpr rfl) (List.not_mem_nil a)
  | cons b t =>
    have hb : b = a := (h b).mp (List.mem_cons_self b t)
    have hbt : b ∉ t := (List.nodup_cons.mp hn).1
    cases t with
    | nil => rw [hb]
    | cons c u =>
      have hc : c = a := (h c).mp (by simp)
      have hbc : b = c := hb.trans hc.symm
      subst hbc
      exact absurd (by simp) hbt

/-- `strings.LastIndex` really points at an occurrence of the needle. -/
lemma lastSubIdx_isPrefixOf (needle : GoStr) :
    ∀ hay i, lastSubIdx needle hay = some i →
    needle.isPrefixOf (hay.drop i) = true := by
  intro hay
  induction hay with
  | nil =>
    intro i h
    simp only [lastSubIdx] at h
    by_cases hn : needle = []
    · subst hn
      simp at h
      subst h
      simp
    · simp [hn] at h
  | cons c rest ih =>
    intro i h
    simp only [lastSubIdx] at h
    cases hrec : lastSubIdx needle rest with
    | some j =>
      rw [hrec] at h
      have hi : i = j + 1 := by
        have := h
        simp at this
        omega
      subst hi
      simpa using ih j hrec
    | none =>
      rw [hrec] at h
      by_cases hp : needle.isPrefixOf (c :: rest) = true
      · simp only [hp, if_true] at h
        have hi : i = 0 := by
          have := h
          simp at this
          omega
        subst hi
        simpa using hp
      · simp only [Bool.not_eq_true] at hp
        simp [hp] at h

/-- With a nonempty payload, `markAsDeleted` is the deletion marker wrapped
around the payload. -/
lemma markAsDeleted_shape (now d : GoStr) (hd : d ≠ []) :
    markAsDeleted now d = deletedStyleOpen now ++ d ++ strOf "</div>" := by
  have : d.isEmpty = false := by
    cases d with
    | nil => exact absurd rfl hd
    | cons x xs => rfl
  simp [markAsDeleted, this]

/-- The marked payload is never empty (the marker text is a nonempty
literal). -/
lemma markAsDeleted_ne_nil (now d : GoStr) (hd : d ≠ []) :
    markAsDeleted now d ≠ [] := by
  rw [markAsDeleted_shape now d hd]
  intro hcontra
  rw [List.append_eq_nil] at hcontra
  have h1 := hcontra.1
  rw [List.append_eq_nil] at h1
  have : deletedStyleOpen now ≠ [] := by
    simp only [deletedStyleOpen]
    intro habs
    rw [List.append_eq_nil] at habs
    have h2 := habs.1
    rw [List.append_eq_nil] at h2
    exact absurd h2.1 (by decide)
  exact this h1.1

/-- With a nonempty payload, `createDeletedSection` is the fixed section
text wrapped around the payload. -/
lemma createDeletedSection_shape (m : GoStr) (hm : m ≠ []) :
    createDeletedSection m = deletedSectionPre ++ m ++ deletedSectionPost := by
  have : m.isEmpty = false := by
    cases m with
    | nil => exact absurd rfl hm
    | cons x xs => rfl
  simp [createDeletedSection, this]

/-- Structure of `mergeDeletedPostsIntoHTML` with a nonempty deleted
payload: the section is spliced at the last `</body>` or appended. -/
lemma merge_structure (now newHTML d : GoStr) (hd : d ≠ []) :
    mergeDeletedPostsIntoHTML now newHTML d =
      (match lastSubIdx (strOf "</body>") newHTML with
      | none => newHTML ++ ['\n'] ++ createDeletedSection (markAsDeleted now d)
      | some i =>
        newHTML.take i ++ createDeletedSection (markAsDeleted now d) ++ newHTML.drop i) := by
  have : d.isEmpty = false := by
    cases d with
    | nil => exact absurd rfl hd
    | cons x xs => rfl
  simp [mergeDeletedPostsIntoHTML, this]

/-- The zero-size-scan counter counts exactly the top-level zero files. -/
lemma scanFilesLoop_count (repair : Bool) :
    ∀ l : List FsEntry,
    (scanFilesLoop repair l).1 = (zeroByteTopLevelFiles l).length := by
  intro l
  induction l with
  | nil => rfl
  | cons e rest ih =>
    cases e with
    | dir n es =>
      simpa [scanFilesLoop, zeroByteTopLevelFiles, List.filterMap_cons] using ih
    | file n sz =>
      cases sz with
      | zero =>
        cases repair <;>
          simp_all [scanFilesLoop, zeroByteTopLevelFiles, List.filterMap_cons]
      | succ k =>
        simpa [scanFilesLoop, zeroByteTopLevelFiles, List.filterMap_cons] using ih

/-- In repair mode, exactly the top-level zero files are removed. -/
lemma scanFilesLoop_removed_repair :
    ∀ l : List FsEntry, (scanFilesLoop true l).2.1 = zeroByteTopLevelFiles l := by
  intro l
  induction l with
  | nil => rfl
  | cons e rest ih =>
    cases e with
    | dir n es =>
      simpa [scanFilesLoop, zeroByteTopLevelFiles, List.filterMap_cons] using ih
    | file n sz =>
      cases sz with
      | zero =>
        simp [scanFilesLoop, zeroByteTopLevelFiles, List.filterMap_cons]
        simpa [zeroByteTopLevelFiles] using ih
      | succ k =>
        simpa [scanFilesLoop, zeroByteTopLevelFiles, List.filterMap_cons] using ih

/-- In repair mode, each removal is recorded as a detail line. -/
lemma scanFilesLoop_details_repair :
    ∀ l : List FsEntry,
    (scanFilesLoop true l).2.2
      = (zeroByteTopLevelFiles l).map VerifyDetail.corruptRemoved := by
  intro l
  induction l with
  | nil => rfl
  | cons e rest ih =>
    cases e with
    | dir n es =>
      simpa [scanFilesLoop, zeroByteTopLevelFiles, List.filterMap_cons] using ih
    | file n sz =>
      cases sz with
      | zero =>
        simp [scanFilesLoop, zeroByteTopLevelFiles, List.filterMap_cons]
        simpa [zeroByteTopLevelFiles] using ih
      | succ k =>
        simpa [scanFilesLoop, zeroByteTopLevelFiles, List.filterMap_cons] using ih

/-- A directory has a zero-size top-level file exactly when the collected
zero-file name list is nonempty. -/
lemma hasZeroTopLevelFile_iff :
    ∀ l : List FsEntry,
    hasZeroTopLevelFile l = true ↔ zeroByteTopLevelFiles l ≠ [] := by
  intro l
  induction l with
  | nil => simp [hasZeroTopLevelFile, zeroByteTopLevelFiles]
  | cons e rest ih =>
    cases e with
    | dir n es =>
      simpa [hasZeroTopLevelFile, zeroByteTopLevelFiles, List.filterMap_cons,
        List.any_cons] using ih
    | file n sz =>
      cases sz with
      | zero =>
        simp [hasZeroTopLevelFile, zeroByteTopLevelFiles, List.filterMap_cons,
          List.any_cons]
      | succ k =>
        simpa [hasZeroTopLevelFile, zeroByteTopLevelFiles, List.filterMap_cons,
          List.any_cons] using ih

/-- Deleting every recorded zero-size file leaves a directory with no
zero-size top-level file. -/
lemma remaining_no_zero :
    ∀ (l : List FsEntry) (removed : List String),
    (∀ n, n ∈ zeroByteTopLevelFiles l → removed.contains n = true) →
    hasZeroTopLevelFile (remainingEntries l removed) = false := by
  intro l
  induction l with
  | nil =>
    intro removed _
    rfl
  | cons e rest ih =>
    intro removed hall
    cases e with
    | dir n es =>
      have hrest := ih removed (fun m hm => hall m (by
        simpa [zeroByteTopLevelFiles, List.filterMap_cons] using hm))
      unfold remainingEntries hasZeroTopLevelFile at hrest ⊢
      rw [List.filter_cons_of_pos (by rfl), List.any_cons, hrest]
      rfl
    | file n sz =>
      cases sz with
      | zero =>
        have hrest := ih removed (fun m hm => hall m (by
          simp only [zeroByteTopLevelFiles, List.filterMap_cons] at hm ⊢
          exact List.mem_cons_of_mem _ hm))
        have hn : removed.contains n = true := hall n (by
          simp [zeroByteTopLevelFiles, List.filterMap_cons])
        unfold remainingEntries hasZeroTopLevelFile at hrest ⊢
        rw [List.filter_cons_of_neg (by show ¬(!removed.contains n) = true; rw [hn]; exact Bool.false_ne_true)]
        exact hrest
      | succ k =>
        have hrest := ih removed (fun m hm => hall m (by
          simpa [zeroByteTopLevelFiles, List.filterMap_cons] using hm))
        unfold remainingEntries hasZeroTopLevelFile at hrest ⊢
        by_cases hc : removed.contains n = true
        · rw [List.filter_cons_of_neg (by show ¬(!removed.contains n) = true; rw [hc]; exact Bool.false_ne_true)]
          exact hrest
        · have hc' : removed.contains n = false := by
            cases hx : removed.contains n
            · rfl
            · exact absurd hx hc
          rw [List.filter_cons_of_pos (by show (!removed.contains n) = true; rw [hc']; rfl), List.any_cons, hrest]
          rfl

/-- The marker-wrapped deleted payload occurs inside the merged output. -/
lemma marker_infix_merge (now newHTML d : GoStr) (hd : d ≠ []) :
    (deletedStyleOpen now ++ d ++ strOf "</div>") <:+:
      mergeDeletedPostsIntoHTML now newHTML d := by
  rw [merge_structure now newHTML d hd,
    createDeletedSection_shape _ (markAsDeleted_ne_nil now d hd),
    markAsDeleted_shape now d hd]
  cases lastSubIdx (strOf "</body>") newHTML with
  | none =>
    refine ⟨newHTML ++ ['\n'] ++ deletedSectionPre, deletedSectionPost, ?_⟩
    simp [List.append_assoc]
  | some i =>
    refine ⟨newHTML.take i ++ deletedSectionPre,
      deletedSectionPost ++ newHTML.drop i, ?_⟩
    simp [List.append_assoc]

end GIBA

/-- C1: `NeedsUpdate(snapshot, currentMediaCount)` returns true when the
snapshot is nil (first archive); returns false when the snapshot's
`IsComplete` flag is true, regardless of the current media count; otherwise
it returns true exactly when `currentMediaCount > snapshot.LastMediaCount`,
and false in every remaining case. -/
theorem C1_needsUpdate (s : GIBA.ThreadSnapshot) (c : Int) :
    GIBA.NeedsUpdate none c = true
    ∧ (s.isComplete = true → GIBA.NeedsUpdate (some s) c = false)
    ∧ (s.isComplete = false →
        (GIBA.NeedsUpdate (some s) c = true ↔ c > s.lastMediaCount)) := by
  refine ⟨rfl, ?_, ?_⟩
  · intro h
    simp [GIBA.NeedsUpdate, h]
  · intro h
    simp only [GIBA.NeedsUpdate, h, Bool.false_eq_true, if_false]
    constructor
    · intro hres
      by_contra hc
      simp [hc] at hres
    · intro hc
      simp [hc]

/-- Witness for C1 at concrete snapshots: a nil snapshot forces an update; a
complete snapshot never does; an incomplete snapshot updates exactly on a
strict media-count increase. -/
theorem C1_needsUpdate_witness :
    GIBA.NeedsUpdate none 5 = true
    ∧ GIBA.NeedsUpdate (some ⟨"t", 0, 0, 3, 0, true⟩) 100 = false
    ∧ GIBA.NeedsUpdate (some ⟨"t", 0, 0, 3, 0, false⟩) 4 = true
    ∧ GIBA.NeedsUpdate (some ⟨"t", 0, 0, 3, 0, false⟩) 3 = false := by
  refine ⟨(C1_needsUpdate ⟨"t", 0, 0, 3, 0, true⟩ 5).1, ?_, ?_, ?_⟩
  · exact (C1_needsUpdate ⟨"t", 0, 0, 3, 0, true⟩ 100).2.1 rfl
  · exact ((C1_needsUpdate ⟨"t", 0, 0, 3, 0, false⟩ 4).2.2 rfl).mpr (by decide)
  · have h := (C1_needsUpdate ⟨"t", 0, 0, 3, 0, false⟩ 3).2.2 rfl
    by_contra hc
    have : (3 : Int) > 3 := h.mp (by revert hc; decide)
    omega

/-- C3 counterexample: status 204 is in the 2xx class but the client does not
return the body: `Get` only accepts exactly 200 (`resp.StatusCode !=
http.StatusOK`), so a 204 response yields a typed `HTTPError` instead. -/
theorem C3_counterexample :
    (200 ≤ 204 ∧ 204 < 300)
    ∧ GIBA.clientGetResponse 204 "body" "http://example/x" =
        .error { statusCode := 204, url := "http://example/x", message := "" } := by
  constructor
  · exact ⟨by omega, by omega⟩
  · rfl

/-- C3 (amended): the client returns the response body without error exactly
when the response status is 200; on any non-200 response it returns a typed
error carrying that status code, whose `IsRetryable()` is false for every
4xx status and true for every 5xx status. -/
theorem C3_clientGet_amended (status : Nat) (body reqURL : String) :
    GIBA.clientGetResponse 200 body reqURL = .ok body
    ∧ (status ≠ 200 → GIBA.clientGetResponse status body reqURL =
        .error { statusCode := status, url := reqURL, message := "" })
    ∧ (∀ e : GIBA.HTTPError, 400 ≤ e.statusCode → e.statusCode < 500 →
        e.isRetryable = false)
    ∧ (∀ e : GIBA.HTTPError, 500 ≤ e.statusCode → e.statusCode < 600 →
        e.isRetryable = true) := by
  refine ⟨rfl, ?_, ?_, ?_⟩
  · intro h
    simp [GIBA.clientGetResponse, GIBA.statusText, h]
  · intro e h4 h5
    simp [GIBA.HTTPError.isRetryable, h4, h5]
  · intro e h5 _
    simp only [GIBA.HTTPError.isRetryable, ite_eq_right_iff]
    intro h
    omega

/-- Witness for C3 (amended) at concrete statuses: 200 succeeds, 404/403/410
are typed non-retryable errors, 500/502/503 are retryable. -/
theorem C3_clientGet_amended_witness :
    GIBA.clientGetResponse 200 "b" "u" = .ok "b"
    ∧ GIBA.clientGetResponse 404 "b" "u" =
        .error { statusCode := 404, url := "u", message := "" }
    ∧ GIBA.HTTPError.isRetryable { statusCode := 404, url := "u", message := "" } = false
    ∧ GIBA.HTTPError.isRetryable { statusCode := 403, url := "u", message := "" } = false
    ∧ GIBA.HTTPError.isRetryable { statusCode := 410, url := "u", message := "" } = false
    ∧ GIBA.HTTPError.isRetryable { statusCode := 500, url := "u", message := "" } = true
    ∧ GIBA.HTTPError.isRetryable { statusCode := 502, url := "u", message := "" } = true
    ∧ GIBA.HTTPError.isRetryable { statusCode := 503, url := "u", message := "" } = true := by
  refine ⟨(C3_clientGet_amended 200 "b" "u").1,
    (C3_clientGet_amended 404 "b" "u").2.1 (by decide),
    (C3_clientGet_amended 404 "b" "u").2.2.1 _ (by decide) (by decide),
    (C3_clientGet_amended 403 "b" "u").2.2.1 _ (by decide) (by decide),
    (C3_clientGet_amended 410 "b" "u").2.2.1 _ (by decide) (by decide),
    (C3_clientGet_amended 500 "b" "u").2.2.2 _ (by decide) (by decide),
    (C3_clientGet_amended 502 "b" "u").2.2.2 _ (by decide) (by decide),
    (C3_clientGet_amended 503 "b" "u").2.2.2 _ (by decide) (by decide)⟩

/-- C4: in `downloadFile`, an attempt failing with a non-retryable (4xx)
HTTP error returns immediately after that attempt, with no further attempts,
regardless of the remaining retry budget; when every attempt up to the
budget fails retryably (retryable HTTP error, network error, or write
failure), the routine performs exactly `retryCount + 1` attempts, waiting
the configured interval between consecutive attempts (`retryCount` waits),
and ends with the exhausted-retries error. -/
theorem C4_downloadFile (att : Nat → GIBA.AttemptOutcome) (rc : Nat) :
    (∀ k s, k ≤ rc →
      (∀ j, j < k → (att j).failsRetryably = true) →
      att k = .httpError s → 400 ≤ s → s < 500 →
      (GIBA.downloadFile att rc).result = .permanentHTTP s ∧
      (GIBA.downloadFile att rc).attempts = k + 1)
    ∧ ((∀ j, j ≤ rc → (att j).failsRetryably = true) →
      (GIBA.downloadFile att rc).result = .exhausted ∧
      (GIBA.downloadFile att rc).attempts = rc + 1 ∧
      (GIBA.downloadFile att rc).waits = rc) := by
  constructor
  · intro k s hk hpre hatt h4 h5
    have hperm : GIBA.HTTPError.isRetryable
        { statusCode := s, url := "", message := "" } = false := by
      simp [GIBA.HTTPError.isRetryable, h4, h5]
    have := GIBA.downloadFileAux_permanent att rc s hperm (rc + 1) 0 k
      (Nat.zero_le k) (by omega) (fun j _ hj => hpre j hj) hatt
    simpa [GIBA.downloadFile] using this
  · intro hall
    have := GIBA.downloadFileAux_exhaust att rc (rc + 1) 0
      (fun j hj => by simpa using hall j (by omega))
    rw [GIBA.downloadFile, this]
    refine ⟨rfl, rfl, ?_⟩
    show min (rc + 1) (rc - 0) = rc
    omega

/-- Witness for C4 at concrete attempt streams: with budget `retryCount = 3`,
a 404 on attempt 1 (after a network failure on attempt 0) stops after 2
attempts; a stream of network failures uses all 4 attempts and 3 waits. -/
theorem C4_downloadFile_witness :
    ((GIBA.downloadFile (fun j => if j = 1 then .httpError 404 else .netError) 3).result
        = .permanentHTTP 404
      ∧ (GIBA.downloadFile (fun j => if j = 1 then .httpError 404 else .netError) 3).attempts
        = 2)
    ∧ ((GIBA.downloadFile (fun _ => .netError) 3).result = .exhausted
      ∧ (GIBA.downloadFile (fun _ => .netError) 3).attempts = 4
      ∧ (GIBA.downloadFile (fun _ => .netError) 3).waits = 3) := by
  constructor
  · exact (C4_downloadFile (fun j => if j = 1 then .httpError 404 else .netError) 3).1
      1 404 (by decide) (by decide) (by decide) (by decide) (by decide)
  · exact (C4_downloadFile (fun _ => .netError) 3).2 (fun j _ => by decide)


/-- C5 counterexample: a previous full output with extracted identifier set
1,2,3 and a current render with set 1,3 for which the reconciler reports 2
as deleted but — the posts not being delimited by any of the three block
patterns — extracts an empty fragment, so the merged full output is exactly
the current render and contains no deletion marker, contradicting the
claim that it always contains the wrapped previous fragment for 2. -/
theorem C5_counterexample :
    GIBA.extractResNumbers (GIBA.strOf "No.1 No.2 No.3") = [['1'], ['2'], ['3']]
    ∧ GIBA.extractResNumbers (GIBA.strOf "<body>No.1 No.3</body>") = [['1'], ['3']]
    ∧ GIBA.deletedResNumbersOf (GIBA.strOf "No.1 No.2 No.3")
        (GIBA.strOf "<body>No.1 No.3</body>") = [['2']]
    ∧ GIBA.detectAndExtractDeletedContent (GIBA.strOf "No.1 No.2 No.3")
        (GIBA.strOf "<body>No.1 No.3</body>") = []
    ∧ GIBA.mergeDeletedPostsIntoHTML (GIBA.strOf "2024-01-01 00:00:00")
        (GIBA.strOf "<body>No.1 No.3</body>")
        (GIBA.detectAndExtractDeletedContent (GIBA.strOf "No.1 No.2 No.3")
          (GIBA.strOf "<body>No.1 No.3</body>"))
        = GIBA.strOf "<body>No.1 No.3</body>"
    ∧ ¬ (GIBA.strOf "削除" <:+: GIBA.strOf "<body>No.1 No.3</body>") := by
  exact ⟨by decide, by decide, by decide, by decide, by decide, by decide⟩

/-- C5 (amended): for every previous full output whose extracted identifier
set is 1,2,3 and current render whose set is 1,3, the reconciler reports
exactly 2 as deleted and extracts the block fragments it finds for 2 in the
previous output; whenever that extracted content is nonempty, the merged
full output contains it wrapped in the deletion marker, spliced in before
the last `</body>` of the current render (so every fragment of the current
render before that boundary, in particular the current fragments for 1 and
3, also occurs in the merged output); when the extracted deleted content is
empty the merged full output equals the current render. -/
theorem C5_deletedContent_amended (oldHTML newHTML now : GIBA.GoStr)
    (hOld : ∀ x, x ∈ GIBA.extractResNumbers oldHTML ↔
      (x = ['1'] ∨ x = ['2'] ∨ x = ['3']))
    (hNew : ∀ x, x ∈ GIBA.extractResNumbers newHTML ↔
      (x = ['1'] ∨ x = ['3'])) :
    GIBA.deletedResNumbersOf oldHTML newHTML = [['2']]
    ∧ GIBA.detectAndExtractDeletedContent oldHTML newHTML =
        GIBA.extractPostsHTML oldHTML [['2']]
    ∧ (∀ d, d ≠ [] →
        (GIBA.deletedStyleOpen now ++ d ++ GIBA.strOf "</div>") <:+:
          GIBA.mergeDeletedPostsIntoHTML now newHTML d)
    ∧ (∀ d i, d ≠ [] → GIBA.lastSubIdx (GIBA.strOf "</body>") newHTML = some i →
        GIBA.mergeDeletedPostsIntoHTML now newHTML d =
          newHTML.take i ++ GIBA.createDeletedSection (GIBA.markAsDeleted now d)
            ++ newHTML.drop i
        ∧ (GIBA.strOf "</body>").isPrefixOf (newHTML.drop i) = true
        ∧ (∀ frag, frag <:+: newHTML.take i →
            frag <:+: GIBA.mergeDeletedPostsIntoHTML now newHTML d))
    ∧ GIBA.mergeDeletedPostsIntoHTML now newHTML [] = newHTML := by
  have hcf : ∀ (l : List GIBA.GoStr) (x : GIBA.GoStr), l.contains x = false ↔ x ∉ l := by
    intro l x
    rw [← Bool.not_eq_true]
    exact not_congr List.elem_iff
  have key : ∀ x, x ∈ GIBA.deletedResNumbersOf oldHTML newHTML ↔ x = ['2'] := by
    intro x
    simp only [GIBA.deletedResNumbersOf, List.mem_filter, List.mem_dedup,
      Bool.not_eq_true']
    constructor
    · rintro ⟨hmem, hnc⟩
      have hnot : x ∉ GIBA.extractResNumbers newHTML := (hcf _ _).mp hnc
      rcases (hOld x).mp hmem with rfl | rfl | rfl
      · exact absurd ((hNew _).mpr (Or.inl rfl)) hnot
      · rfl
      · exact absurd ((hNew _).mpr (Or.inr rfl)) hnot
    · rintro rfl
      refine ⟨(hOld _).mpr (Or.inr (Or.inl rfl)), (hcf _ _).mpr ?_⟩
      intro hmem
      rcases (hNew _).mp hmem with h | h
      · exact absurd h (by decide)
      · exact absurd h (by decide)
  have hdel : GIBA.deletedResNumbersOf oldHTML newHTML = [['2']] :=
    GIBA.eq_singleton_of_nodup_mem_iff
      (List.Nodup.filter _ (List.nodup_dedup _)) key
  refine ⟨hdel, ?_, ?_, ?_, rfl⟩
  · simp [GIBA.detectAndExtractDeletedContent, hdel]
  · intro d hd
    exact GIBA.marker_infix_merge now newHTML d hd
  · intro d i hd hlast
    have hmerge : GIBA.mergeDeletedPostsIntoHTML now newHTML d =
        newHTML.take i ++ GIBA.createDeletedSection (GIBA.markAsDeleted now d)
          ++ newHTML.drop i := by
      rw [GIBA.merge_structure now newHTML d hd, hlast]
    refine ⟨hmerge, GIBA.lastSubIdx_isPrefixOf _ _ _ hlast, ?_⟩
    intro frag hfrag
    rcases hfrag with ⟨s, t, hst⟩
    refine ⟨s, t ++ GIBA.createDeletedSection (GIBA.markAsDeleted now d)
      ++ newHTML.drop i, ?_⟩
    rw [hmerge, ← hst]
    simp [List.append_assoc]

/-- Witness for C5 (amended) at a concrete table-delimited render pair: the
deleted set is exactly 2, the extracted fragment is nonempty, the merged
output contains it wrapped in the deletion marker, and both current
fragments survive into the merged output. -/
theorem C5_deletedContent_amended_witness :
    GIBA.deletedResNumbersOf GIBA.sampleOldFullRender GIBA.sampleCurrentRender = [['2']]
    ∧ (GIBA.deletedStyleOpen GIBA.sampleNow
        ++ GIBA.detectAndExtractDeletedContent GIBA.sampleOldFullRender
            GIBA.sampleCurrentRender
        ++ GIBA.strOf "</div>") <:+:
        GIBA.mergeDeletedPostsIntoHTML GIBA.sampleNow GIBA.sampleCurrentRender
          (GIBA.detectAndExtractDeletedContent GIBA.sampleOldFullRender
            GIBA.sampleCurrentRender)
    ∧ GIBA.strOf "<table><td>No.1</td></table>" <:+:
        GIBA.mergeDeletedPostsIntoHTML GIBA.sampleNow GIBA.sampleCurrentRender
          (GIBA.detectAndExtractDeletedContent GIBA.sampleOldFullRender
            GIBA.sampleCurrentRender)
    ∧ GIBA.strOf "<table><td>No.3</td></table>" <:+:
        GIBA.mergeDeletedPostsIntoHTML GIBA.sampleNow GIBA.sampleCurrentRender
          (GIBA.detectAndExtractDeletedContent GIBA.sampleOldFullRender
            GIBA.sampleCurrentRender) := by
  have h := C5_deletedContent_amended GIBA.sampleOldFullRender GIBA.sampleCurrentRender
    GIBA.sampleNow
    (by
      intro x
      rw [show GIBA.extractResNumbers GIBA.sampleOldFullRender
        = [['1'], ['2'], ['3']] from by decide]
      simp)
    (by
      intro x
      rw [show GIBA.extractResNumbers GIBA.sampleCurrentRender
        = [['1'], ['3']] from by decide]
      simp)
  have hDne : GIBA.detectAndExtractDeletedContent GIBA.sampleOldFullRender
      GIBA.sampleCurrentRender ≠ [] := by decide
  have hlast : GIBA.lastSubIdx (GIBA.strOf "</body>") GIBA.sampleCurrentRender
      = some 68 := by decide
  have hfrags := h.2.2.2.1 (GIBA.detectAndExtractDeletedContent
    GIBA.sampleOldFullRender GIBA.sampleCurrentRender) 68 hDne hlast
  refine ⟨h.1, h.2.2.1 _ hDne, ?_, ?_⟩
  · exact hfrags.2.2 _ (by decide)
  · exact hfrags.2.2 _ (by decide)

/-- C2: with resume support enabled and no prior pending file, the resolver
returns exactly the media items without a present non-zero-size file on
disk (N−K of N items when K are present), persists that list as the new
pending state — deleting the pending file when the list is empty — and a
second invocation against the same unchanged disk state, starting from the
persisted pending state, returns the same set and state (idempotence). -/
theorem C2_resumeRoundTrip (disk : GIBA.GoStr → Option Nat)
    (allMediaFiles : List GIBA.MediaInfo) :
    (GIBA.handleResumeLogic true none allMediaFiles disk).1
      = allMediaFiles.filter (fun m => !GIBA.presentOnDisk disk m)
    ∧ (GIBA.handleResumeLogic true none allMediaFiles disk).1.length
      = allMediaFiles.length
        - (allMediaFiles.filter (fun m => GIBA.presentOnDisk disk m)).length
    ∧ (GIBA.handleResumeLogic true none allMediaFiles disk).2
      = (if (GIBA.handleResumeLogic true none allMediaFiles disk).1 = [] then none
         else some (GIBA.handleResumeLogic true none allMediaFiles disk).1)
    ∧ GIBA.handleResumeLogic true
        (GIBA.handleResumeLogic true none allMediaFiles disk).2 allMediaFiles disk
      = GIBA.handleResumeLogic true none allMediaFiles disk := by
  have h1 : GIBA.handleResumeLogic true none allMediaFiles disk
      = (allMediaFiles.filter (fun m => !GIBA.presentOnDisk disk m),
         if allMediaFiles.filter (fun m => !GIBA.presentOnDisk disk m) = []
         then none
         else some (allMediaFiles.filter (fun m => !GIBA.presentOnDisk disk m))) := by
    rw [GIBA.handleResume_eval disk none allMediaFiles]
  refine ⟨by rw [h1], ?_, by rw [h1], ?_⟩
  · rw [h1]
    exact GIBA.length_filter_not _ _
  · rw [h1]
    cases hF : allMediaFiles.filter (fun m => !GIBA.presentOnDisk disk m) with
    | nil =>
      have hmain : GIBA.handleResumeLogic true none allMediaFiles disk
          = ([], none) := by
        rw [h1, hF]
        simp
      simpa using hmain
    | cons y ys =>
      have hidem : (y :: ys).filter (fun m => !GIBA.presentOnDisk disk m)
          = y :: ys := by
        rw [← hF, List.filter_filter]
        apply List.filter_congr
        intro m _
        exact Bool.and_self _
      have hmain : GIBA.handleResumeLogic true (some (y :: ys)) allMediaFiles disk
          = (y :: ys, some (y :: ys)) := by
        rw [GIBA.handleResume_eval disk (some (y :: ys)) allMediaFiles]
        simp only [hidem]
        simp
      simpa using hmain

/-- C10: the resume resolver derives each candidate's expected file name by
calling `generateFileName` with an empty format, which returns exactly the
media record's `OriginalFilename` (ignoring the task's configured filename
format, which `handleResumeLogic` never receives); consequently a media
record with an empty `OriginalFilename` fails name generation and is always
placed on the to-download list, whatever files exist on disk. -/
theorem C10_resumeFilenameFallback (disk : GIBA.GoStr → Option Nat)
    (allMediaFiles : List GIBA.MediaInfo) (media : GIBA.MediaInfo)
    (hmem : media ∈ allMediaFiles) (hempty : media.originalFilename = "") :
    (∀ m : GIBA.MediaInfo, m.originalFilename ≠ "" →
      GIBA.generateFileName [] GIBA.zeroThreadInfo m
        = .ok (GIBA.strOf m.originalFilename))
    ∧ (∃ e, GIBA.generateFileName [] GIBA.zeroThreadInfo media = .error e)
    ∧ media ∈ (GIBA.handleResumeLogic true none allMediaFiles disk).1 := by
  refine ⟨?_, ?_, ?_⟩
  · intro m hm
    simp [GIBA.generateFileName, hm]
  · exact ⟨"ファイル名フォーマットとOriginalFilenameの両方が空です",
      by simp [GIBA.generateFileName, hempty]⟩
  · have h1 : GIBA.handleResumeLogic true none allMediaFiles disk
        = (allMediaFiles.filter (fun m => !GIBA.presentOnDisk disk m),
           if allMediaFiles.filter (fun m => !GIBA.presentOnDisk disk m) = []
           then none
           else some (allMediaFiles.filter (fun m => !GIBA.presentOnDisk disk m))) := by
      rw [GIBA.handleResume_eval disk none allMediaFiles]
    rw [h1]
    refine List.mem_filter.mpr ⟨hmem, ?_⟩
    simp [GIBA.presentOnDisk, GIBA.generateFileName, hempty]

/-- Witness for C10: a media record with empty `OriginalFilename` lands on
the to-download list even though the disk holds a non-zero-size `a.jpg`
matching its URL basename. -/
theorem C10_resumeFilenameFallback_witness :
    ({ url := "http://host/a.jpg", thumbnailURL := "",
       originalFilename := "", resNumber := 1, localPath := "",
       localThumbPath := "" } : GIBA.MediaInfo) ∈
      (GIBA.handleResumeLogic true none
        [{ url := "http://host/a.jpg", thumbnailURL := "",
           originalFilename := "", resNumber := 1, localPath := "",
           localThumbPath := "" }]
        (fun n => if n = GIBA.strOf "a.jpg" then some 100 else none)).1
    ∧ (fun n => if n = GIBA.strOf "a.jpg" then some 100 else none)
        (GIBA.strOf "a.jpg") = some 100 := by
  refine ⟨(C10_resumeFilenameFallback
    (fun n => if n = GIBA.strOf "a.jpg" then some 100 else none)
    [{ url := "http://host/a.jpg", thumbnailURL := "",
       originalFilename := "", resNumber := 1, localPath := "",
       localThumbPath := "" }]
    { url := "http://host/a.jpg", thumbnailURL := "",
      originalFilename := "", resNumber := 1, localPath := "",
      localThumbPath := "" }
    (by simp) rfl).2.2, by simp⟩

/-- C6: in non-forced verification the `if !force` block of `verifyTask`
ends in an unconditional `continue`, so no thread is ever actually checked
— not even a thread with a stale or missing verification record; the
directory lookup, index check and media scan below the gate are reached
only when `force` is set.  (A stale history entry merely increments
`TotalFailed`.)  This contradicts both the claim and the code's own
comment, which say only threads verified within the last 24 hours are
skipped. -/
theorem C6_nonForcedNeverChecks (histEntry : Option Int) (now t : Int) :
    (GIBA.verifyThreadGate false histEntry now).1 = false
    ∧ (GIBA.verifyThreadGate true histEntry now).1 = true
    ∧ GIBA.verifyThreadGate false none now = (false, 0)
    ∧ GIBA.verifyThreadGate false (some t) now
      = (false, if now - t < GIBA.freshnessWindow then 0 else 1) := by
  refine ⟨?_, rfl, rfl, ?_⟩
  · cases histEntry with
    | none => rfl
    | some t' =>
      by_cases h : now - t' < GIBA.freshnessWindow <;>
        simp [GIBA.verifyThreadGate, h]
  · by_cases h : now - t < GIBA.freshnessWindow <;>
      simp [GIBA.verifyThreadGate, h]

/-- C7 counterexample: a thread directory whose only zero-byte file sits
inside the `img` media subdirectory.  `os.ReadDir` of the thread directory
skips subdirectory contents, so forced verification in repair mode finds
nothing: `TotalMissing` stays 0 (the claim requires ≥ 1), nothing is
removed (the zero-byte `img/a.jpg` still exists afterwards), and neither
`TotalRepaired` nor `TotalFailed` counts anything. -/
theorem C7_counterexample :
    GIBA.hasNonEmptyIndex
      [GIBA.FsEntry.file "index.htm" 100,
       GIBA.FsEntry.dir "img" [GIBA.FsEntry.file "a.jpg" 0]] = true
    ∧ GIBA.hasZeroTopLevelFile [GIBA.FsEntry.file "a.jpg" 0] = true
    ∧ (GIBA.verifyFoundThreadDir true
        [GIBA.FsEntry.file "index.htm" 100,
         GIBA.FsEntry.dir "img" [GIBA.FsEntry.file "a.jpg" 0]]).totalMissingDelta = 0
    ∧ (GIBA.verifyFoundThreadDir true
        [GIBA.FsEntry.file "index.htm" 100,
         GIBA.FsEntry.dir "img" [GIBA.FsEntry.file "a.jpg" 0]]).removedFiles = []
    ∧ (GIBA.verifyFoundThreadDir true
        [GIBA.FsEntry.file "index.htm" 100,
         GIBA.FsEntry.dir "img" [GIBA.FsEntry.file "a.jpg" 0]]).totalRepairedDelta = 0
    ∧ (GIBA.verifyFoundThreadDir true
        [GIBA.FsEntry.file "index.htm" 100,
         GIBA.FsEntry.dir "img" [GIBA.FsEntry.file "a.jpg" 0]]).totalFailedDelta = 0
    ∧ GIBA.remainingEntries
        [GIBA.FsEntry.file "index.htm" 100,
         GIBA.FsEntry.dir "img" [GIBA.FsEntry.file "a.jpg" 0]]
        (GIBA.verifyFoundThreadDir true
          [GIBA.FsEntry.file "index.htm" 100,
           GIBA.FsEntry.dir "img" [GIBA.FsEntry.file "a.jpg" 0]]).removedFiles
      = [GIBA.FsEntry.file "index.htm" 100,
         GIBA.FsEntry.dir "img" [GIBA.FsEntry.file "a.jpg" 0]] :=
  ⟨rfl, rfl, rfl, rfl, rfl, rfl, rfl⟩

/-- C7 (amended): under forced verification of a thread directory with a
readable index, a zero-byte file among the directory's top-level files
(the scan does not descend into subdirectories such as the media
subdirectory) makes `TotalMissing` count exactly 1 for the thread; in
repair mode exactly those top-level zero-byte files are deleted — none
remains afterwards — and each deletion is recorded as a `MissingDetails`
line, while `TotalRepaired` and `TotalFailed` are never changed by the
scan; with no top-level zero-byte file nothing is counted or removed. -/
theorem C7_zeroByteScan_amended (repair : Bool) (entries : List GIBA.FsEntry)
    (hidx : GIBA.hasNonEmptyIndex entries = true) :
    (GIBA.hasZeroTopLevelFile entries = true →
      (GIBA.verifyFoundThreadDir repair entries).totalMissingDelta = 1)
    ∧ (GIBA.verifyFoundThreadDir true entries).removedFiles
        = GIBA.zeroByteTopLevelFiles entries
    ∧ (GIBA.verifyFoundThreadDir true entries).details
        = (GIBA.zeroByteTopLevelFiles entries).map GIBA.VerifyDetail.corruptRemoved
    ∧ GIBA.hasZeroTopLevelFile
        (GIBA.remainingEntries entries
          (GIBA.verifyFoundThreadDir true entries).removedFiles) = false
    ∧ (GIBA.verifyFoundThreadDir repair entries).totalRepairedDelta = 0
    ∧ (GIBA.verifyFoundThreadDir repair entries).totalFailedDelta = 0
    ∧ (GIBA.hasZeroTopLevelFile entries = false →
        (GIBA.verifyFoundThreadDir repair entries).totalMissingDelta = 0
        ∧ (GIBA.verifyFoundThreadDir repair entries).removedFiles = []) := by
  have hidx' : (!GIBA.hasNonEmptyIndex entries) = false := by rw [hidx]; rfl
  have hbody : ∀ r : Bool, GIBA.verifyFoundThreadDir r entries =
      { missingCount := (GIBA.scanFilesLoop r entries).1,
        totalMissingDelta := if (GIBA.scanFilesLoop r entries).1 > 0 then 1 else 0,
        totalRepairedDelta := 0, totalFailedDelta := 0,
        removedFiles := (GIBA.scanFilesLoop r entries).2.1,
        details := (GIBA.scanFilesLoop r entries).2.2,
        historyRefreshed := (GIBA.scanFilesLoop r entries).1 = 0 } := by
    intro r
    unfold GIBA.verifyFoundThreadDir
    rw [hidx']
    rfl
  refine ⟨?_, ?_, ?_, ?_, ?_, ?_, ?_⟩
  · intro hz
    rw [hbody repair]
    have : (GIBA.zeroByteTopLevelFiles entries).length > 0 := by
      have hne := (GIBA.hasZeroTopLevelFile_iff entries).mp hz
      cases hzz : GIBA.zeroByteTopLevelFiles entries with
      | nil => exact absurd hzz hne
      | cons a l => simp
    simp [GIBA.scanFilesLoop_count, this]
  · rw [hbody true]
    exact GIBA.scanFilesLoop_removed_repair entries
  · rw [hbody true]
    exact GIBA.scanFilesLoop_details_repair entries
  · rw [hbody true]
    show GIBA.hasZeroTopLevelFile
      (GIBA.remainingEntries entries (GIBA.scanFilesLoop true entries).2.1) = false
    rw [GIBA.scanFilesLoop_removed_repair entries]
    apply GIBA.remaining_no_zero
    intro n hn
    exact List.elem_iff.mpr hn
  · rw [hbody repair]
  · rw [hbody repair]
  · intro hz
    have hzero : GIBA.zeroByteTopLevelFiles entries = [] := by
      by_contra hne
      rw [(GIBA.hasZeroTopLevelFile_iff entries).mpr hne] at hz
      cases hz
    constructor
    · rw [hbody repair]
      simp [GIBA.scanFilesLoop_count, hzero]
    · rw [hbody repair]
      show (GIBA.scanFilesLoop repair entries).2.1 = []
      cases repair with
      | true => rw [GIBA.scanFilesLoop_removed_repair entries, hzero]
      | false =>
        clear hz hidx hidx' hbody
        induction entries with
        | nil => rfl
        | cons e rest ih =>
          cases e with
          | dir n es =>
            simp only [GIBA.zeroByteTopLevelFiles, List.filterMap_cons] at hzero ih
            exact ih hzero
          | file n sz =>
            cases sz with
            | zero =>
              exfalso
              simp [GIBA.zeroByteTopLevelFiles, List.filterMap_cons] at hzero
            | succ k =>
              simp only [GIBA.zeroByteTopLevelFiles, List.filterMap_cons] at hzero ih
              simp only [GIBA.scanFilesLoop]
              exact ih hzero

/-- Witness for C7 (amended) at a concrete directory with a readable index,
one zero-byte `a.jpg` and one healthy file: the thread counts one
`TotalMissing`, repair removes exactly `a.jpg` and records it, no zero-byte
top-level file remains, and the repaired/failed counters stay 0. -/
theorem C7_zeroByteScan_amended_witness :
    (GIBA.verifyFoundThreadDir true
      [GIBA.FsEntry.file "index.htm" 100, GIBA.FsEntry.file "a.jpg" 0,
       GIBA.FsEntry.file "b.jpg" 50]).totalMissingDelta = 1
    ∧ (GIBA.verifyFoundThreadDir true
        [GIBA.FsEntry.file "index.htm" 100, GIBA.FsEntry.file "a.jpg" 0,
         GIBA.FsEntry.file "b.jpg" 50]).removedFiles = ["a.jpg"]
    ∧ (GIBA.verifyFoundThreadDir true
        [GIBA.FsEntry.file "index.htm" 100, GIBA.FsEntry.file "a.jpg" 0,
         GIBA.FsEntry.file "b.jpg" 50]).details
      = [GIBA.VerifyDetail.corruptRemoved "a.jpg"]
    ∧ GIBA.hasZeroTopLevelFile
        (GIBA.remainingEntries
          [GIBA.FsEntry.file "index.htm" 100, GIBA.FsEntry.file "a.jpg" 0,
           GIBA.FsEntry.file "b.jpg" 50]
          (GIBA.verifyFoundThreadDir true
            [GIBA.FsEntry.file "index.htm" 100, GIBA.FsEntry.file "a.jpg" 0,
             GIBA.FsEntry.file "b.jpg" 50]).removedFiles) = false
    ∧ (GIBA.verifyFoundThreadDir true
        [GIBA.FsEntry.file "index.htm" 100, GIBA.FsEntry.file "a.jpg" 0,
         GIBA.FsEntry.file "b.jpg" 50]).totalRepairedDelta = 0
    ∧ (GIBA.verifyFoundThreadDir true
        [GIBA.FsEntry.file "index.htm" 100, GIBA.FsEntry.file "a.jpg" 0,
         GIBA.FsEntry.file "b.jpg" 50]).totalFailedDelta = 0 := by
  have h := C7_zeroByteScan_amended true
    [GIBA.FsEntry.file "index.htm" 100, GIBA.FsEntry.file "a.jpg" 0,
     GIBA.FsEntry.file "b.jpg" 50] rfl
  exact ⟨h.1 rfl, (h.2.1).trans rfl, (h.2.2.1).trans rfl, h.2.2.2.1,
    h.2.2.2.2.1, h.2.2.2.2.2.1⟩

/-- C8: `appendToHistory` is a stub — it returns success without writing,
so after a successful `ArchiveSingleThread` the completed-thread history
file is unchanged and does not contain the archived thread's ID; the
claim's append (the commented-out `f.WriteString(threadID + "\n")`) never
happens. -/
theorem C8_appendToHistory_stub (contents threadID : String) :
    GIBA.appendToHistory contents threadID = contents
    ∧ GIBA.appendToHistory "" "12345" = ""
    ∧ GIBA.loadTaskHistory (GIBA.strOf (GIBA.appendToHistory "" "12345")) = []
    ∧ ¬ GIBA.strOf "12345" ∈
        GIBA.loadTaskHistory (GIBA.strOf (GIBA.appendToHistory "" "12345")) := by
  refine ⟨rfl, rfl, by decide, by decide⟩

/-- C9: every snapshot `ArchiveSingleThread` ever hands to
`SaveThreadSnapshot` carries the literal `IsComplete: false`, and a thread
whose fetch fails — in particular a gone thread answered with 404 — causes
an error return at STEP 1, before any snapshot is persisted.  So no
execution of the core persists a snapshot with `IsComplete = true`,
contradicting the documented purpose of the flag (its own comment:
"スレッドが落ちた（404）場合にtrue"). -/
theorem C9_isCompleteNeverTrue (env : GIBA.ArchiveEnv) (e : GIBA.HTTPError) :
    (∀ snap, GIBA.archivePersistedSnapshot env = some snap →
      snap.isComplete = false)
    ∧ GIBA.archivePersistedSnapshot
        { env with fetchResult := .error e } = none := by
  constructor
  · intro snap h
    unfold GIBA.archivePersistedSnapshot at h
    cases hf : env.fetchResult with
    | error e' =>
      rw [hf] at h
      cases h
    | ok body =>
      rw [hf] at h
      repeat' split at h
      all_goals (cases h <;> rfl)
  · rfl

/-- Witness for C9: a concrete environment that reaches STEP 6 persists the
snapshot with `IsComplete = false`, and the same environment with a 404
fetch persists nothing. -/
theorem C9_isCompleteNeverTrue_witness :
    GIBA.archivePersistedSnapshot
      { threadID := "777", now := 5, fetchResult := .ok "<html>",
        parseOk := true, filtersPass := true, mediaCount := 3,
        minimumMediaCount := 1, loadedSnapshot := none, midStepsFail := false }
      = some (GIBA.newSnapshotAfterArchive "777" 5 3)
    ∧ (GIBA.newSnapshotAfterArchive "777" 5 3).isComplete = false
    ∧ GIBA.archivePersistedSnapshot
        { threadID := "777", now := 5,
          fetchResult := .error { statusCode := 404, url := "u", message := "" },
          parseOk := true, filtersPass := true, mediaCount := 3,
          minimumMediaCount := 1, loadedSnapshot := none, midStepsFail := false }
      = none := by
  refine ⟨rfl, ?_, ?_⟩
  · exact (C9_isCompleteNeverTrue
      { threadID := "777", now := 5, fetchResult := .ok "<html>",
        parseOk := true, filtersPass := true, mediaCount := 3,
        minimumMediaCount := 1, loadedSnapshot := none, midStepsFail := false }
      { statusCode := 404, url := "u", message := "" }).1
      (GIBA.newSnapshotAfterArchive "777" 5 3) rfl
  · exact (C9_isCompleteNeverTrue
      { threadID := "777", now := 5, fetchResult := .ok "<html>",
        parseOk := true, filtersPass := true, mediaCount := 3,
        minimumMediaCount := 1, loadedSnapshot := none, midStepsFail := false }
      { statusCode := 404, url := "u", message := "" }).2
